import Mathlib

/-! Verification of the pull-request check aggregation, deduplication and
display pipeline of the `checks` command of this repository.  The command's
implementation file is not part of the sources here (only its test file is),
so the pipeline is modelled from the specification, with every choice that
the specification leaves open pinned down by the expectations recorded in
the repository's own tests (`TestEliminateDupulicates`, `Test_checksRun`). -/

namespace Checks

/-- Unified raw check entry as delivered by the fetch collaborator, mirroring
the `api.CheckContext` shape used throughout the test file: a type
discriminator (`CheckRun` or `StatusContext`), a name (run-style) or context
label (status-style), raw state / status / conclusion strings, start and
completion times (modelled as seconds, `0` standing for Go's absent zero
time) and the two possible detail-link fields. -/
structure CheckContext where
  typeName : String
  name : String
  context : String
  state : String
  status : String
  conclusion : String
  startedAt : Nat
  completedAt : Nat
  detailsURL : String
  targetURL : String
deriving DecidableEq

/-- Modelled from the spec: the DedupKey of a record is the pair of its kind
and its identity (the name for a run-style check, the context label for a
status-style check), encoded as a single string. -/
def dedupKey (c : CheckContext) : String :=
  if c.typeName = "CheckRun" then "CheckRun/" ++ c.name
  else if c.typeName = "StatusContext" then "StatusContext/" ++ c.context
  else ""

/-- Insertion of an element into a list, placed before the first element that
it compares at-or-above; building block of a stable insertion sort. -/
def insertLe {α : Type} (le : α → α → Bool) (c : α) : List α → List α
  | [] => [c]
  | x :: xs => if le c x then c :: x :: xs else x :: insertLe le c xs

/-- Stable insertion sort with respect to a boolean comparison: an element
inserted from the left stays before every element it ties with. -/
def sortLe {α : Type} (le : α → α → Bool) : List α → List α
  | [] => []
  | c :: cs => insertLe le c (sortLe le cs)

/-- Comparison putting the record with the later start time first; on equal
start times the element coming earlier in the input stays first. -/
def startLe (a b : CheckContext) : Bool := decide (b.startedAt ≤ a.startedAt)

/-- Single pass keeping only the first record of each DedupKey that is not
already in the `seen` accumulator. -/
def dedupFilter (seen : List String) : List CheckContext → List CheckContext
  | [] => []
  | c :: cs =>
    if dedupKey c ∈ seen then dedupFilter seen cs
    else c :: dedupFilter (dedupKey c :: seen) cs

/-- Modelled from the spec: the deduplicator `eliminateDuplicates`, whose
implementation file is missing from the sources (only its tests are present).
The spec describes output in first-seen-key order, but the repository's own
`TestEliminateDupulicates` requires the surviving records in most-recent-first
order (the rerun with the later `startedAt` heads the output), so the
deduplicator is modelled as a stable sort by `startedAt` descending followed
by keeping the first record per DedupKey; this reproduces every case of that
test verbatim. -/
def eliminateDuplicates (l : List CheckContext) : List CheckContext :=
  dedupFilter [] (sortLe startLe l)

/-- Four-way classification of a deduplicated record. -/
inductive Bucket where
  | pass
  | fail
  | pending
  | skipped
deriving DecidableEq

/-- Normalized per-record data carried to the renderer: display identity,
classification, formatted elapsed duration (empty when unavailable) and the
details link, mirroring the `check` row type of the command. -/
structure check where
  name : String
  bucket : Bucket
  elapsed : String
  link : String
deriving DecidableEq

/-- Modelled from the spec: classification of a record from its raw state.
A status-style record maps `SUCCESS` to pass, `PENDING` or the empty state to
pending and anything else to fail; a run-style record is pending until its
status is `COMPLETED`, then its conclusion maps `SUCCESS` or `NEUTRAL` to
pass, `SKIPPED` to skipped, and every other (including unknown) conclusion
conservatively to fail. -/
def classify (c : CheckContext) : Bucket :=
  if c.typeName = "StatusContext" then
    if c.state = "SUCCESS" then .pass
    else if c.state = "PENDING" ∨ c.state = "" then .pending
    else .fail
  else
    if c.status ≠ "COMPLETED" then .pending
    else if c.conclusion = "SUCCESS" ∨ c.conclusion = "NEUTRAL" then .pass
    else if c.conclusion = "SKIPPED" then .skipped
    else .fail

/-- Compact duration rendering for a whole number of seconds, in the style of
Go's `time.Duration.String` (`1m26s`, `2h3m4s`). -/
def fmtDuration (n : Nat) : String :=
  if n < 60 then toString n ++ "s"
  else if n < 3600 then toString (n / 60) ++ "m" ++ toString (n % 60) ++ "s"
  else toString (n / 3600) ++ "h" ++ toString ((n % 3600) / 60) ++ "m" ++ toString (n % 60) ++ "s"

/-- Modelled from the spec: elapsed time of a record, empty when either
timestamp is absent (the zero time) or no positive duration elapsed. -/
def elapsedOf (startedAt completedAt : Nat) : String :=
  if startedAt ≠ 0 ∧ completedAt ≠ 0 ∧ startedAt < completedAt then
    fmtDuration (completedAt - startedAt)
  else ""

/-- Modelled from the spec: the normalizer projecting a raw heterogeneous
check entry onto the unified record used by the renderer. -/
def normalize (c : CheckContext) : check :=
  { name := if c.typeName = "StatusContext" then c.context else c.name
    bucket := classify c
    elapsed := elapsedOf c.startedAt c.completedAt
    link := if c.typeName = "StatusContext" then c.targetURL else c.detailsURL }

/-- Aggregate summary counters, incremented per classified record. -/
structure checkCounts where
  failed : Nat
  passed : Nat
  skipped : Nat
  pending : Nat
deriving DecidableEq

/-- Modelled from the spec: the aggregator incrementing the counter matching
each record's classification. -/
def countsOf : List check → checkCounts
  | [] => ⟨0, 0, 0, 0⟩
  | c :: cs =>
    let r := countsOf cs
    match c.bucket with
    | .fail => { r with failed := r.failed + 1 }
    | .pass => { r with passed := r.passed + 1 }
    | .skipped => { r with skipped := r.skipped + 1 }
    | .pending => { r with pending := r.pending + 1 }

/-- Overall outcome of one fetch's aggregate summary. -/
inductive Outcome where
  | allPassed
  | pending
  | failed
deriving DecidableEq

/-- Modelled from the spec: outcome derivation with the hard three-way
precedence, any failing check dominating, then any pending check. -/
def outcomeOf (s : checkCounts) : Outcome :=
  if 1 ≤ s.failed then .failed
  else if 1 ≤ s.pending then .pending
  else .allPassed

/-- Command-level error signal: the silent failure carries no message at all
(the caller exits non-zero without further diagnostics), while a user-visible
error carries a human-readable message. -/
inductive CmdError where
  | silentError
  | userError (msg : String)
deriving DecidableEq

/-- Modelled from the spec: the headline sentence for each outcome. -/
def headlineOf : Outcome → String
  | .allPassed => "All checks were successful"
  | .pending => "Some checks are still pending"
  | .failed => "Some checks were not successful"

/-- Modelled from the spec: the outcome resolver's error signal, success for
an all-passed summary and the message-free silent failure otherwise. -/
def errorOf : Outcome → Option CmdError
  | .allPassed => none
  | .pending => some .silentError
  | .failed => some .silentError

/-- Code-point comparison of character lists; on UTF-8 encoded text this
coincides with byte order. -/
def charsLe : List Char → List Char → Bool
  | [], _ => true
  | _ :: _, [] => false
  | a :: as, b :: bs =>
    if a.toNat < b.toNat then true
    else if b.toNat < a.toNat then false
    else charsLe as bs

/-- Case-sensitive byte-order comparison of strings. -/
def byteLe (a b : String) : Bool := charsLe a.data b.data

/-- Display rank of a classified record: failing rows come first, all other
rows after. -/
def rank (c : check) : Nat :=
  match c.bucket with
  | .fail => 0
  | _ => 1

/-- Row ordering of the renderer: failing rows first, then the remaining
rows, each group in ascending byte order of the identity. -/
def rowLe (a b : check) : Bool :=
  if rank a < rank b then true
  else if rank b < rank a then false
  else byteLe a.name b.name

/-- Modelled from the spec and the repository's tests: the deterministic row
order applied before rendering in either mode.  The spec's plain
identity-ascending order does not match the expected output of the
some-failing scenario of `Test_checksRun` (the failing `sad tests` row is
listed before `cool tests`), so rows are modelled as sorted with failing rows
first and by identity within each group, which reproduces every expected
output of that test. -/
def sortChecks (l : List check) : List check := sortLe rowLe l

/-- Lowercase outcome word of the machine-readable stream. -/
def bucketWord : Bucket → String
  | .pass => "pass"
  | .fail => "fail"
  | .pending => "pending"
  | .skipped => "skipped"

/-- Status glyph of the interactive table. -/
def glyphOf : Bucket → String
  | .pass => "✓"
  | .fail => "X"
  | .pending => "*"
  | .skipped => "-"

/-- Right padding of a cell to the column width with spaces. -/
def padRight (s : String) (w : Nat) : String :=
  s ++ String.mk (List.replicate (w - s.length) ' ')

/-- Widest cell produced by `f` over the rows, used for column alignment. -/
def maxWidth (f : check → String) (l : List check) : Nat :=
  l.foldr (fun c m => max (f c).length m) 0

/-- Modelled from the spec: one aligned row of the interactive table: glyph,
identity and elapsed cells padded to their column widths and separated by two
spaces, the link last. -/
def renderRow (nw ew : Nat) (c : check) : String :=
  glyphOf c.bucket ++ "  " ++ padRight c.name nw ++ "  " ++ padRight c.elapsed ew ++ "  " ++ c.link ++ "\n"

/-- Aligned table body over the given rows. -/
def renderRows (l : List check) : String :=
  (l.map (renderRow (maxWidth (fun c => c.name) l) (maxWidth (fun c => c.elapsed) l))).foldr (· ++ ·) ""

/-- Modelled from the spec: the four-way count line of the interactive
render. -/
def countsLine (s : checkCounts) : String :=
  toString s.failed ++ " failing, " ++ toString s.passed ++ " successful, " ++
    toString s.skipped ++ " skipped, and " ++ toString s.pending ++ " pending checks"

/-- Modelled from the spec: the interactive render, a headline and the count
line, a blank line, then the aligned table. -/
def renderTTY (s : checkCounts) (rows : List check) : String :=
  headlineOf (outcomeOf s) ++ "\n" ++ countsLine s ++ "\n\n" ++ renderRows rows

/-- Full interactive frame for a deduplicated record set: summary followed by
the table over the deterministically ordered rows. -/
def renderFrame (cs : List check) : String :=
  renderTTY (countsOf cs) (sortChecks cs)

/-- Modelled from the spec: the machine-readable stream, one line per record
with identity, outcome word, elapsed (or `0` when unavailable) and link
separated by single tabs; no headline and no counts. -/
def renderNonTTY : List check → String
  | [] => ""
  | c :: cs =>
    (c.name ++ "\t" ++ bucketWord c.bucket ++ "\t" ++
      (if c.elapsed = "" then "0" else c.elapsed) ++ "\t" ++ c.link ++ "\n") ++ renderNonTTY cs

/-- Pull request as seen by this pipeline: the head branch name and, when a
commit exists at all, the raw check entries of its latest commit. -/
structure PullRequest where
  headRefName : String
  commits : Option (List CheckContext)

/-- Modelled from the spec: fetch-result validation and the
normalize-and-dedup stage.  A pull request without a commit is the
user-visible no-commit error, a commit with zero check entries the
user-visible no-checks error naming the head branch; otherwise the
deduplicated, normalized record list. -/
def toChecks (pr : PullRequest) : Except CmdError (List check) :=
  match pr.commits with
  | none => .error (.userError "no commit found on the pull request")
  | some ctxs =>
    if ctxs.isEmpty then
      .error (.userError ("no checks reported on the '" ++ pr.headRefName ++ "' branch"))
    else
      .ok ((eliminateDuplicates ctxs).map normalize)

/-- Modelled from the spec: one single-shot run of the pipeline, returning
the text written to stdout and the command's error signal.  Validation
errors halt before any render (stdout stays empty); otherwise the rows are
put in the deterministic order and rendered in the mode selected by the
interactive flag, and the outcome resolver supplies the error signal. -/
def checksRunOnce (tty : Bool) (pr : PullRequest) : String × Option CmdError :=
  match toChecks pr with
  | .error e => ("", some e)
  | .ok cs =>
    ((if tty then renderFrame cs else renderNonTTY (sortChecks cs)),
      errorOf (outcomeOf (countsOf cs)))

/-- Escape sequence entering the terminal's alternate screen buffer. -/
def altEnter : String := "\x1b[?1049h"

/-- Escape sequence leaving the terminal's alternate screen buffer. -/
def altExit : String := "\x1b[?1049l"

/-- Escape sequence repositioning and clearing the frame between two polls
inside the alternate buffer. -/
def refreshSeq : String := "\x1b[0;0H\x1b[J"

/-- Modelled from the spec: the bounded polling loop of watch mode on an
interactive terminal, consuming the successive fetch results.  Each cycle
renders a frame; a pending outcome repaints and continues with the next
fetch, any other outcome stops.  The value is the content drawn inside the
alternate buffer, the final frame and the final summary; `none` when the
fetch results are exhausted while still pending or a fetch fails
validation. -/
def watchLoop : List PullRequest → Option (String × String × checkCounts)
  | [] => none
  | pr :: rest =>
    match toChecks pr with
    | .error _ => none
    | .ok cs =>
      let frame := renderFrame cs
      let counts := countsOf cs
      if outcomeOf counts = .pending then
        match watchLoop rest with
        | none => none
        | some (acc, fin, fc) => some (frame ++ refreshSeq ++ acc, fin, fc)
      else some (frame, frame, counts)

/-- Modelled from the spec: a watch-mode run on an interactive terminal over
the given stream of fetch results.  The whole loop is bracketed by entering
and leaving the alternate screen buffer, and after leaving it the final
frame is printed once more so it survives on the normal screen; the error
signal is resolved from the final summary. -/
def checksRunWatch (prs : List PullRequest) : Option (String × Option CmdError) :=
  (watchLoop prs).map fun x =>
    (altEnter ++ x.1 ++ altExit ++ x.2.1, errorOf (outcomeOf x.2.2))

/-- Stated from the claim's words: the distinct DedupKeys of the input in
order of each key's first appearance, for comparison with the deduplicator's
actual output order. -/
def firstSeenKeysAux (seen : List String) : List CheckContext → List String
  | [] => []
  | c :: cs =>
    if dedupKey c ∈ seen then firstSeenKeysAux seen cs
    else dedupKey c :: firstSeenKeysAux (dedupKey c :: seen) cs

/-- Distinct DedupKeys in first-appearance order. -/
def firstSeenKeys (l : List CheckContext) : List String := firstSeenKeysAux [] l

/-- Stated from the claim's words: whether a list of identities is in
ascending case-sensitive byte order. -/
def ascByName : List String → Bool
  | [] => true
  | [_] => true
  | a :: b :: rest => byteLe a b && ascByName (b :: rest)

/-- Record of the duplicate-CheckRun case of `TestEliminateDupulicates`: the
unique build run. -/
def buildCtx : CheckContext :=
  ⟨"CheckRun", "build (ubuntu-latest)", "", "", "COMPLETED", "SUCCESS", 1, 1,
    "https://github.com/cli/cli/runs/1", ""⟩

/-- Record of the duplicate-CheckRun case: the earlier, failing lint run. -/
def lintFailCtx : CheckContext :=
  ⟨"CheckRun", "lint", "", "", "COMPLETED", "FAILURE", 1, 1,
    "https://github.com/cli/cli/runs/2", ""⟩

/-- Record of the duplicate-CheckRun case: the later, successful lint rerun. -/
def lintPassCtx : CheckContext :=
  ⟨"CheckRun", "lint", "", "", "COMPLETED", "SUCCESS", 2, 2,
    "https://github.com/cli/cli/runs/3", ""⟩

/-- Input of the duplicate-CheckRun case of `TestEliminateDupulicates`. -/
def dupRunInput : List CheckContext := [buildCtx, lintFailCtx, lintPassCtx]

/-- Record of the duplicate-StatusContext case: the earlier, failing Windows
GPU status. -/
def winFailCtx : CheckContext :=
  ⟨"StatusContext", "", "Windows GPU", "FAILURE", "", "", 1, 1, "",
    "https://github.com/cli/cli/2"⟩

/-- Record of the duplicate-StatusContext case: the later, successful Windows
GPU status. -/
def winPassCtx : CheckContext :=
  ⟨"StatusContext", "", "Windows GPU", "SUCCESS", "", "", 2, 2, "",
    "https://github.com/cli/cli/3"⟩

/-- Record of the duplicate-StatusContext case: the unique Linux GPU status. -/
def linuxCtx : CheckContext :=
  ⟨"StatusContext", "", "Linux GPU", "SUCCESS", "", "", 1, 1, "",
    "https://github.com/cli/cli/1"⟩

/-- Input of the duplicate-StatusContext case of `TestEliminateDupulicates`. -/
def dupStatusInput : List CheckContext := [winFailCtx, winPassCtx, linuxCtx]

/-- Input of the unique-CheckContext case of `TestEliminateDupulicates`. -/
def uniqueInput : List CheckContext :=
  [buildCtx,
   ⟨"StatusContext", "", "Windows GPU", "SUCCESS", "", "", 1, 1, "",
     "https://github.com/cli/cli/2"⟩,
   ⟨"StatusContext", "", "Linux GPU", "SUCCESS", "", "", 1, 1, "",
     "https://github.com/cli/cli/3"⟩]

/-- Two records with distinct DedupKeys whose start times ascend in input
order. -/
def pairAsc : List CheckContext :=
  [⟨"CheckRun", "alpha", "", "", "COMPLETED", "SUCCESS", 1, 1, "", ""⟩,
   ⟨"CheckRun", "beta", "", "", "COMPLETED", "SUCCESS", 2, 2, "", ""⟩]

/-- Failing run check of the some-failing fixture (86 elapsed seconds). -/
def sadCtx : CheckContext :=
  ⟨"CheckRun", "sad tests", "", "", "COMPLETED", "FAILURE", 100, 186, "sweet link", ""⟩

/-- Passing run check shared by several fixtures. -/
def coolCtx : CheckContext :=
  ⟨"CheckRun", "cool tests", "", "", "COMPLETED", "SUCCESS", 100, 186, "sweet link", ""⟩

/-- Still-running check of the some-failing and some-pending fixtures. -/
def slowCtx : CheckContext :=
  ⟨"CheckRun", "slow tests", "", "", "IN_PROGRESS", "", 100, 186, "sweet link", ""⟩

/-- Passing run check shared by several fixtures. -/
def radCtx : CheckContext :=
  ⟨"CheckRun", "rad tests", "", "", "COMPLETED", "SUCCESS", 100, 186, "sweet link", ""⟩

/-- Passing run check of the all-passing fixture. -/
def awesomeCtx : CheckContext :=
  ⟨"CheckRun", "awesome tests", "", "", "COMPLETED", "SUCCESS", 100, 186, "sweet link", ""⟩

/-- Skipped run check of the some-skipping fixture. -/
def radSkipCtx : CheckContext :=
  ⟨"CheckRun", "rad tests", "", "", "COMPLETED", "SKIPPED", 100, 186, "sweet link", ""⟩

/-- Skipped run check of the some-skipping fixture. -/
def skipCtx : CheckContext :=
  ⟨"CheckRun", "skip tests", "", "", "COMPLETED", "SKIPPED", 100, 186, "sweet link", ""⟩

/-- Failing bare status of the with-statuses fixture, carrying no
timestamps. -/
def statusCtx : CheckContext :=
  ⟨"StatusContext", "", "a status", "FAILURE", "", "", 0, 0, "", "sweet link"⟩

/-- Pull request of the some-failing scenario. -/
def someFailingPR : PullRequest := ⟨"trunk", some [sadCtx, coolCtx, slowCtx]⟩

/-- Pull request of the some-pending scenario. -/
def somePendingPR : PullRequest := ⟨"trunk", some [coolCtx, radCtx, slowCtx]⟩

/-- Pull request of the all-passing scenario. -/
def allPassingPR : PullRequest := ⟨"trunk", some [awesomeCtx, coolCtx, radCtx]⟩

/-- Pull request of the with-statuses scenario. -/
def withStatusesPR : PullRequest := ⟨"trunk", some [statusCtx, coolCtx, radCtx]⟩

/-- Pull request of the some-skipping scenario. -/
def someSkippingPR : PullRequest := ⟨"trunk", some [coolCtx, radSkipCtx, skipCtx]⟩

/-- Normalized records of the some-failing scenario. -/
def someFailingChecks : List check :=
  [⟨"sad tests", .fail, "1m26s", "sweet link"⟩,
   ⟨"cool tests", .pass, "1m26s", "sweet link"⟩,
   ⟨"slow tests", .pending, "1m26s", "sweet link"⟩]

/-- Normalized records of the all-passing scenario. -/
def allPassingChecks : List check :=
  [⟨"awesome tests", .pass, "1m26s", "sweet link"⟩,
   ⟨"cool tests", .pass, "1m26s", "sweet link"⟩,
   ⟨"rad tests", .pass, "1m26s", "sweet link"⟩]

/-- Normalized records of the some-skipping scenario. -/
def someSkippingChecks : List check :=
  [⟨"cool tests", .pass, "1m26s", "sweet link"⟩,
   ⟨"rad tests", .skipped, "1m26s", "sweet link"⟩,
   ⟨"skip tests", .skipped, "1m26s", "sweet link"⟩]

theorem insertLe_mem {α : Type} {le : α → α → Bool} {c x : α} {l : List α}
    (h : x ∈ insertLe le c l) : x = c ∨ x ∈ l := by
  induction l with
  | nil =>
    simp only [insertLe, List.mem_singleton] at h
    exact Or.inl h
  | cons y ys ih =>
    by_cases hcy : le c y
    · simp only [insertLe, if_pos hcy, List.mem_cons] at h
      rcases h with h | h | h
      · exact Or.inl h
      · exact Or.inr (List.mem_cons.mpr (Or.inl h))
      · exact Or.inr (List.mem_cons.mpr (Or.inr h))
    · simp only [insertLe, if_neg hcy, List.mem_cons] at h
      rcases h with h | h
      · exact Or.inr (List.mem_cons.mpr (Or.inl h))
      · rcases ih h with h | h
        · exact Or.inl h
        · exact Or.inr (List.mem_cons.mpr (Or.inr h))

theorem insertLe_perm {α : Type} (le : α → α → Bool) (c : α) (l : List α) :
    List.Perm (insertLe le c l) (c :: l) := by
  induction l with
  | nil => simp [insertLe]
  | cons y ys ih =>
    by_cases hcy : le c y
    · simp [insertLe, hcy]
    · simp only [insertLe, if_neg hcy]
      exact (ih.cons y).trans (List.Perm.swap c y ys)

theorem sortLe_perm {α : Type} (le : α → α → Bool) (l : List α) :
    List.Perm (sortLe le l) l := by
  induction l with
  | nil => simp [sortLe]
  | cons c cs ih =>
    exact (insertLe_perm le c (sortLe le cs)).trans (ih.cons c)

theorem insertLe_pairwise {α : Type} {le : α → α → Bool}
    (htot : ∀ a b, le a b = true ∨ le b a = true)
    (htr : ∀ a b c, le a b = true → le b c = true → le a c = true)
    {c : α} {l : List α} (hl : l.Pairwise (fun a b => le a b = true)) :
    (insertLe le c l).Pairwise (fun a b => le a b = true) := by
  induction l with
  | nil => simp [insertLe]
  | cons y ys ih =>
    rcases List.pairwise_cons.mp hl with ⟨hy, hys⟩
    by_cases hcy : le c y
    · simp only [insertLe, if_pos hcy]
      refine List.pairwise_cons.mpr ⟨?_, hl⟩
      intro z hz
      rcases List.mem_cons.mp hz with rfl | hz
      · exact hcy
      · exact htr c y z hcy (hy z hz)
    · simp only [insertLe, if_neg hcy]
      have hyc : le y c = true := by
        rcases htot c y with h | h
        · exact absurd h hcy
        · exact h
      refine List.pairwise_cons.mpr ⟨?_, ih hys⟩
      intro z hz
      rcases insertLe_mem hz with rfl | hz
      · exact hyc
      · exact hy z hz

theorem sortLe_pairwise {α : Type} {le : α → α → Bool}
    (htot : ∀ a b, le a b = true ∨ le b a = true)
    (htr : ∀ a b c, le a b = true → le b c = true → le a c = true)
    (l : List α) :
    (sortLe le l).Pairwise (fun a b => le a b = true) := by
  induction l with
  | nil => simp [sortLe]
  | cons c cs ih => exact insertLe_pairwise htot htr ih

theorem sortLe_eq_of_pairwise {α : Type} {le : α → α → Bool} {l : List α}
    (hl : l.Pairwise (fun a b => le a b = true)) : sortLe le l = l := by
  induction l with
  | nil => rfl
  | cons c cs ih =>
    rcases List.pairwise_cons.mp hl with ⟨hc, hcs⟩
    rw [sortLe, ih hcs]
    cases cs with
    | nil => rfl
    | cons x xs =>
      have hx : le c x = true := hc x (List.mem_cons_self x xs)
      simp [insertLe, hx]

theorem dedupFilter_sublist (seen : List String) (l : List CheckContext) :
    (dedupFilter seen l).Sublist l := by
  induction l generalizing seen with
  | nil => simp [dedupFilter]
  | cons c cs ih =>
    by_cases h : dedupKey c ∈ seen
    · simp only [dedupFilter, if_pos h]
      exact (ih seen).cons c
    · simp only [dedupFilter, if_neg h]
      exact (ih (dedupKey c :: seen)).cons₂ c

theorem dedupFilter_key_not_seen {seen : List String} {l : List CheckContext}
    {r : CheckContext} (hr : r ∈ dedupFilter seen l) : dedupKey r ∉ seen := by
  induction l generalizing seen with
  | nil => simp [dedupFilter] at hr
  | cons c cs ih =>
    by_cases h : dedupKey c ∈ seen
    · rw [dedupFilter, if_pos h] at hr
      exact ih hr
    · rw [dedupFilter, if_neg h] at hr
      rcases List.mem_cons.mp hr with rfl | hr
      · exact h
      · intro hmem
        exact ih hr (List.mem_cons.mpr (Or.inr hmem))

theorem dedupFilter_keys_nodup (seen : List String) (l : List CheckContext) :
    ((dedupFilter seen l).map dedupKey).Nodup := by
  induction l generalizing seen with
  | nil => simp [dedupFilter]
  | cons c cs ih =>
    by_cases h : dedupKey c ∈ seen
    · rw [dedupFilter, if_pos h]
      exact ih seen
    · rw [dedupFilter, if_neg h]
      rw [List.map_cons, List.nodup_cons]
      refine ⟨?_, ih (dedupKey c :: seen)⟩
      intro hmem
      rcases List.mem_map.mp hmem with ⟨r, hr, hkey⟩
      exact dedupFilter_key_not_seen hr (hkey ▸ List.mem_cons_self _ _)

theorem dedupFilter_mem_keys {seen : List String} {l : List CheckContext}
    {k : String} (hk : k ∉ seen) (hmem : k ∈ l.map dedupKey) :
    k ∈ (dedupFilter seen l).map dedupKey := by
  induction l generalizing seen with
  | nil => simp at hmem
  | cons c cs ih =>
    rw [List.map_cons, List.mem_cons] at hmem
    by_cases h : dedupKey c ∈ seen
    · rw [dedupFilter, if_pos h]
      rcases hmem with rfl | hmem
      · exact absurd h hk
      · exact ih hk hmem
    · rw [dedupFilter, if_neg h, List.map_cons]
      rcases hmem with rfl | hmem
      · exact List.mem_cons_self _ _
      · by_cases hck : k = dedupKey c
        · rw [hck]
          exact List.mem_cons_self _ _
        · have hk' : k ∉ dedupKey c :: seen := by
            intro hx
            rcases List.mem_cons.mp hx with hx | hx
            · exact hck hx
            · exact hk hx
          exact List.mem_cons.mpr (Or.inr (ih hk' hmem))

theorem dedupFilter_eq_self {seen : List String} {l : List CheckContext}
    (hd : (l.map dedupKey).Nodup) (hs : ∀ k ∈ l.map dedupKey, k ∉ seen) :
    dedupFilter seen l = l := by
  induction l generalizing seen with
  | nil => rfl
  | cons c cs ih =>
    rw [List.map_cons, List.nodup_cons] at hd
    have hc : dedupKey c ∉ seen := hs _ (List.mem_cons_self _ _)
    rw [dedupFilter, if_neg hc]
    congr 1
    refine ih hd.2 ?_
    intro k hk hmem
    rcases List.mem_cons.mp hmem with rfl | hmem
    · exact hd.1 hk
    · exact hs k (List.mem_cons.mpr (Or.inr hk)) hmem

theorem dedupFilter_max {l : List CheckContext} :
    ∀ {seen : List String},
      l.Pairwise (fun a b => b.startedAt ≤ a.startedAt) →
      ∀ r ∈ dedupFilter seen l, ∀ r' ∈ l, dedupKey r' = dedupKey r →
        r'.startedAt ≤ r.startedAt := by
  induction l with
  | nil =>
    intro seen _ r hr
    simp [dedupFilter] at hr
  | cons c cs ih =>
    intro seen hsort r hr r' hr' hkey
    rcases List.pairwise_cons.mp hsort with ⟨hc, hcs⟩
    by_cases h : dedupKey c ∈ seen
    · rw [dedupFilter, if_pos h] at hr
      rcases List.mem_cons.mp hr' with rfl | hr'
      · exact absurd (hkey ▸ h) (dedupFilter_key_not_seen hr)
      · exact ih hcs r hr r' hr' hkey
    · rw [dedupFilter, if_neg h] at hr
      rcases List.mem_cons.mp hr with rfl | hr
      · rcases List.mem_cons.mp hr' with rfl | hr'
        · exact Nat.le_refl _
        · exact hc r' hr'
      · rcases List.mem_cons.mp hr' with rfl | hr'
        · have : dedupKey r ∉ dedupKey r' :: seen := dedupFilter_key_not_seen hr
          exact absurd (hkey ▸ List.mem_cons_self _ _) this
        · exact ih hcs r hr r' hr' hkey

theorem startLe_total (a b : CheckContext) : startLe a b = true ∨ startLe b a = true := by
  unfold startLe
  rcases Nat.le_total a.startedAt b.startedAt with h | h
  · exact Or.inr (decide_eq_true h)
  · exact Or.inl (decide_eq_true h)

theorem startLe_trans (a b c : CheckContext)
    (h1 : startLe a b = true) (h2 : startLe b c = true) : startLe a c = true := by
  unfold startLe at h1 h2 ⊢
  exact decide_eq_true (Nat.le_trans (of_decide_eq_true h2) (of_decide_eq_true h1))

theorem startLe_le {a b : CheckContext} (h : startLe a b = true) :
    b.startedAt ≤ a.startedAt := by
  simpa [startLe] using h

theorem dedup_sorted (l : List CheckContext) :
    (eliminateDuplicates l).Pairwise (fun a b => b.startedAt ≤ a.startedAt) := by
  have hs := sortLe_pairwise startLe_total startLe_trans l
  have hsub := dedupFilter_sublist [] (sortLe startLe l)
  exact (List.Pairwise.sublist hsub hs).imp startLe_le

theorem dedup_mem {l : List CheckContext} {r : CheckContext}
    (hr : r ∈ eliminateDuplicates l) : r ∈ l := by
  have hsub := dedupFilter_sublist [] (sortLe startLe l)
  exact (sortLe_perm startLe l).mem_iff.mp (hsub.mem hr)

theorem dedup_keys_nodup (l : List CheckContext) :
    ((eliminateDuplicates l).map dedupKey).Nodup :=
  dedupFilter_keys_nodup [] (sortLe startLe l)

theorem dedup_keys_complete {l : List CheckContext} {k : String} :
    k ∈ (eliminateDuplicates l).map dedupKey ↔ k ∈ l.map dedupKey := by
  constructor
  · intro h
    rcases List.mem_map.mp h with ⟨r, hr, rfl⟩
    exact List.mem_map.mpr ⟨r, dedup_mem hr, rfl⟩
  · intro h
    refine dedupFilter_mem_keys (by simp) ?_
    rcases List.mem_map.mp h with ⟨r, hr, rfl⟩
    exact List.mem_map.mpr ⟨r, (sortLe_perm startLe l).mem_iff.mpr hr, rfl⟩

theorem dedup_max {l : List CheckContext} {r : CheckContext}
    (hr : r ∈ eliminateDuplicates l) :
    ∀ r' ∈ l, dedupKey r' = dedupKey r → r'.startedAt ≤ r.startedAt := by
  intro r' hr' hkey
  have hs := sortLe_pairwise startLe_total startLe_trans l
  have hs' : (sortLe startLe l).Pairwise (fun a b => b.startedAt ≤ a.startedAt) :=
    hs.imp startLe_le
  exact dedupFilter_max hs' r hr r' ((sortLe_perm startLe l).mem_iff.mpr hr') hkey

theorem charsLe_total : ∀ a b : List Char, charsLe a b = true ∨ charsLe b a = true := by
  intro a
  induction a with
  | nil => intro b; exact Or.inl rfl
  | cons x xs ih =>
    intro b
    cases b with
    | nil => exact Or.inr rfl
    | cons y ys =>
      by_cases h1 : x.toNat < y.toNat
      · left
        simp [charsLe, h1]
      · by_cases h2 : y.toNat < x.toNat
        · right
          simp [charsLe, h1, h2]
        · rcases ih ys with h | h
          · left
            simp [charsLe, h1, h2, h]
          · right
            simp [charsLe, h1, h2, h]

theorem charsLe_trans :
    ∀ a b c : List Char, charsLe a b = true → charsLe b c = true → charsLe a c = true := by
  intro a
  induction a with
  | nil => intro b c _ _; rfl
  | cons x xs ih =>
    intro b c hab hbc
    cases b with
    | nil => simp [charsLe] at hab
    | cons y ys =>
      cases c with
      | nil => simp [charsLe] at hbc
      | cons z zs =>
        by_cases hxy : x.toNat < y.toNat
        · by_cases hyz : y.toNat < z.toNat
          · have hxz : x.toNat < z.toNat := Nat.lt_trans hxy hyz
            simp [charsLe, hxz]
          · by_cases hzy : z.toNat < y.toNat
            · simp [charsLe, hyz, hzy] at hbc
            · have hyz' : y.toNat = z.toNat := Nat.le_antisymm (Nat.le_of_not_lt hzy) (Nat.le_of_not_lt hyz)
              have hxz : x.toNat < z.toNat := hyz' ▸ hxy
              simp [charsLe, hxz]
        · by_cases hyx : y.toNat < x.toNat
          · simp [charsLe, hxy, hyx] at hab
          · have hxy' : x.toNat = y.toNat := Nat.le_antisymm (Nat.le_of_not_lt hyx) (Nat.le_of_not_lt hxy)
            simp only [charsLe, hxy, if_neg hyx, if_false] at hab
            by_cases hyz : y.toNat < z.toNat
            · have hxz : x.toNat < z.toNat := hxy' ▸ hyz
              simp [charsLe, hxz]
            · by_cases hzy : z.toNat < y.toNat
              · simp [charsLe, hyz, hzy] at hbc
              · have hyz' : y.toNat = z.toNat := Nat.le_antisymm (Nat.le_of_not_lt hzy) (Nat.le_of_not_lt hyz)
                simp only [charsLe, hyz, if_neg hzy, if_false] at hbc
                have hxz : ¬ x.toNat < z.toNat := by omega
                have hzx : ¬ z.toNat < x.toNat := by omega
                simp [charsLe, hxz, hzx]
                exact ih ys zs hab hbc

theorem byteLe_total (a b : String) : byteLe a b = true ∨ byteLe b a = true :=
  charsLe_total a.data b.data

theorem byteLe_trans {a b c : String} (h1 : byteLe a b = true) (h2 : byteLe b c = true) :
    byteLe a c = true :=
  charsLe_trans a.data b.data c.data h1 h2

theorem rowLe_total (a b : check) : rowLe a b = true ∨ rowLe b a = true := by
  unfold rowLe
  by_cases h1 : rank a < rank b
  · left
    simp [h1]
  · by_cases h2 : rank b < rank a
    · right
      simp [h1, h2]
    · rcases byteLe_total a.name b.name with h | h
      · left
        simp [h1, h2, h]
      · right
        simp [h1, h2, h]

theorem rowLe_trans (a b c : check) (h1 : rowLe a b = true) (h2 : rowLe b c = true) :
    rowLe a c = true := by
  unfold rowLe at h1 h2 ⊢
  by_cases hab : rank a < rank b
  · by_cases hbc : rank b < rank c
    · simp [Nat.lt_trans hab hbc]
    · by_cases hcb : rank c < rank b
      · simp [hbc, hcb] at h2
      · have : rank b = rank c := Nat.le_antisymm (Nat.le_of_not_lt hcb) (Nat.le_of_not_lt hbc)
        simp [this ▸ hab]
  · by_cases hba : rank b < rank a
    · simp [hab, hba] at h1
    · have hr1 : rank a = rank b := Nat.le_antisymm (Nat.le_of_not_lt hba) (Nat.le_of_not_lt hab)
      simp only [if_neg hab, if_neg hba, if_false] at h1
      by_cases hbc : rank b < rank c
      · simp [hr1 ▸ hbc]
      · by_cases hcb : rank c < rank b
        · simp [hbc, hcb] at h2
        · have hr2 : rank b = rank c := Nat.le_antisymm (Nat.le_of_not_lt hcb) (Nat.le_of_not_lt hbc)
          simp only [if_neg hbc, if_neg hcb, if_false] at h2
          have hac : ¬ rank a < rank c := by omega
          have hca : ¬ rank c < rank a := by omega
          simp only [if_neg hac, if_neg hca, if_false]
          exact byteLe_trans h1 h2

/-- Reproduction of the duplicate-CheckRun case of `TestEliminateDupulicates`:
the later successful lint rerun survives and heads the output, followed by
the unique build run. -/
theorem model_matches_dedup_run_case :
    eliminateDuplicates dupRunInput = [lintPassCtx, buildCtx] := rfl

/-- Reproduction of the duplicate-StatusContext case of
`TestEliminateDupulicates`. -/
theorem model_matches_dedup_status_case :
    eliminateDuplicates dupStatusInput = [winPassCtx, linuxCtx] := rfl

/-- Reproduction of the unique-CheckContext case of
`TestEliminateDupulicates`: without duplicate keys and with equal start
times, the input comes back unchanged. -/
theorem model_matches_dedup_unique_case :
    eliminateDuplicates uniqueInput = uniqueInput := rfl

/-- Reproduction of the some-pending interactive scenario of
`Test_checksRun`. -/
theorem model_matches_somePending_tty :
    checksRunOnce true somePendingPR =
      ("Some checks are still pending\n0 failing, 2 successful, 0 skipped, and 1 pending checks\n\n✓  cool tests  1m26s  sweet link\n✓  rad tests   1m26s  sweet link\n*  slow tests  1m26s  sweet link\n",
        some .silentError) := rfl

/-- Reproduction of the all-passing interactive scenario of
`Test_checksRun`. -/
theorem model_matches_allPassing_tty :
    checksRunOnce true allPassingPR =
      ("All checks were successful\n0 failing, 3 successful, 0 skipped, and 0 pending checks\n\n✓  awesome tests  1m26s  sweet link\n✓  cool tests     1m26s  sweet link\n✓  rad tests      1m26s  sweet link\n",
        none) := rfl

/-- Reproduction of the with-statuses interactive scenario of
`Test_checksRun`, the bare status row showing an empty elapsed column. -/
theorem model_matches_withStatuses_tty :
    checksRunOnce true withStatusesPR =
      ("Some checks were not successful\n1 failing, 2 successful, 0 skipped, and 0 pending checks\n\nX  a status           sweet link\n✓  cool tests  1m26s  sweet link\n✓  rad tests   1m26s  sweet link\n",
        some .silentError) := rfl

/-- Reproduction of the some-skipping interactive scenario of
`Test_checksRun`. -/
theorem model_matches_someSkipping_tty :
    checksRunOnce true someSkippingPR =
      ("All checks were successful\n0 failing, 1 successful, 2 skipped, and 0 pending checks\n\n✓  cool tests  1m26s  sweet link\n-  rad tests   1m26s  sweet link\n-  skip tests  1m26s  sweet link\n",
        none) := rfl

/-- Reproduction of the some-failing non-interactive scenario of
`Test_checksRun`. -/
theorem model_matches_someFailing_stream :
    checksRunOnce false someFailingPR =
      ("sad tests\tfail\t1m26s\tsweet link\ncool tests\tpass\t1m26s\tsweet link\nslow tests\tpending\t1m26s\tsweet link\n",
        some .silentError) := rfl

/-- Reproduction of the with-statuses non-interactive scenario of
`Test_checksRun`, the bare status line showing `0` in the elapsed field. -/
theorem model_matches_withStatuses_stream :
    checksRunOnce false withStatusesPR =
      ("a status\tfail\t0\tsweet link\ncool tests\tpass\t1m26s\tsweet link\nrad tests\tpass\t1m26s\tsweet link\n",
        some .silentError) := rfl

/-- Reproduction of the all-passing non-interactive scenario of
`Test_checksRun`. -/
theorem model_matches_allPassing_stream :
    checksRunOnce false allPassingPR =
      ("awesome tests\tpass\t1m26s\tsweet link\ncool tests\tpass\t1m26s\tsweet link\nrad tests\tpass\t1m26s\tsweet link\n",
        none) := rfl

set_option maxRecDepth 8192 in
/-- Reproduction of the watch-all-passing scenario of `Test_checksRun`: one
frame inside the alternate buffer, then the identical content once more
outside it. -/
theorem model_matches_watch_allPassing :
    checksRunWatch [allPassingPR] =
      some ("\x1b[?1049hAll checks were successful\n0 failing, 3 successful, 0 skipped, and 0 pending checks\n\n✓  awesome tests  1m26s  sweet link\n✓  cool tests     1m26s  sweet link\n✓  rad tests      1m26s  sweet link\n\x1b[?1049lAll checks were successful\n0 failing, 3 successful, 0 skipped, and 0 pending checks\n\n✓  awesome tests  1m26s  sweet link\n✓  cool tests     1m26s  sweet link\n✓  rad tests      1m26s  sweet link\n",
        none) := rfl

/-- C1, counterexample: on the repository's own duplicate-CheckRun test data
the deduplicator's output lists the key of the lint rerun (latest
`startedAt`) first, while the key first seen in the input is the build
key, so output order is not first-appearance order. -/
theorem dedup_not_first_appearance_order :
    (eliminateDuplicates dupRunInput).map dedupKey
        = ["CheckRun/lint", "CheckRun/build (ubuntu-latest)"]
    ∧ firstSeenKeys dupRunInput = ["CheckRun/build (ubuntu-latest)", "CheckRun/lint"]
    ∧ (eliminateDuplicates dupRunInput).map dedupKey ≠ firstSeenKeys dupRunInput :=
  ⟨rfl, rfl, by decide⟩

/-- C1 (amended): the deduplicator's output has at most one record per
DedupKey, covers exactly the keys of the input, and lists the surviving
records ordered by `startedAt` most recent first (ties keeping input order),
rather than in order of each key's first appearance. -/
theorem dedup_output_most_recent_first (l : List CheckContext) :
    ((eliminateDuplicates l).map dedupKey).Nodup
    ∧ (eliminateDuplicates l).Pairwise (fun a b => b.startedAt ≤ a.startedAt)
    ∧ (∀ k, k ∈ (eliminateDuplicates l).map dedupKey ↔ k ∈ l.map dedupKey)
    ∧ ∀ r ∈ eliminateDuplicates l, r ∈ l :=
  ⟨dedup_keys_nodup l, dedup_sorted l, fun _ => dedup_keys_complete,
    fun _ hr => dedup_mem hr⟩

/-- C1, witness of the amended claim on the duplicate-CheckRun test data. -/
theorem dedup_output_most_recent_first_witness :
    ((eliminateDuplicates dupRunInput).map dedupKey).Nodup
    ∧ "CheckRun/lint" ∈ (eliminateDuplicates dupRunInput).map dedupKey :=
  ⟨(dedup_output_most_recent_first dupRunInput).1,
    ((dedup_output_most_recent_first dupRunInput).2.2.1 "CheckRun/lint").mpr (by decide)⟩

/-- C2: when exactly two input records share a DedupKey, the one with the
strictly later `startedAt` is retained and the earlier one is dropped,
regardless of the order in which the two appear in the input. -/
theorem dedup_recency (l : List CheckContext) (a b : CheckContext)
    (ha : a ∈ l) (hb : b ∈ l) (hk : dedupKey a = dedupKey b)
    (hlt : a.startedAt < b.startedAt)
    (honly : ∀ c ∈ l, dedupKey c = dedupKey b → c = a ∨ c = b) :
    b ∈ eliminateDuplicates l ∧ a ∉ eliminateDuplicates l := by
  have hcov : dedupKey b ∈ (eliminateDuplicates l).map dedupKey :=
    dedup_keys_complete.mpr (List.mem_map.mpr ⟨b, hb, rfl⟩)
  rcases List.mem_map.mp hcov with ⟨r, hrout, hrkey⟩
  have hrl : r ∈ l := dedup_mem hrout
  have hble : b.startedAt ≤ r.startedAt := dedup_max hrout b hb hrkey.symm
  constructor
  · rcases honly r hrl hrkey with rfl | rfl
    · omega
    · exact hrout
  · intro ha'
    have := dedup_max ha' b hb hk.symm
    omega

/-- C2, witness on the duplicate-StatusContext test data: the later
successful Windows GPU status survives, the earlier failing one does not. -/
theorem dedup_recency_witness :
    winPassCtx ∈ eliminateDuplicates dupStatusInput
    ∧ winFailCtx ∉ eliminateDuplicates dupStatusInput :=
  dedup_recency dupStatusInput winFailCtx winPassCtx (by decide) (by decide)
    (by decide) (by decide) (by decide)

/-- C3, counterexample: in the some-failing interactive scenario the rendered
table lists the failing `sad tests` row before `cool tests`, so the rows are
not in ascending byte order of the identity. -/
theorem table_rows_not_identity_sorted :
    checksRunOnce true someFailingPR =
      ("Some checks were not successful\n1 failing, 1 successful, 0 skipped, and 1 pending checks\n\nX  sad tests   1m26s  sweet link\n✓  cool tests  1m26s  sweet link\n*  slow tests  1m26s  sweet link\n",
        some .silentError)
    ∧ (sortChecks someFailingChecks).map check.name
        = ["sad tests", "cool tests", "slow tests"]
    ∧ ascByName ((sortChecks someFailingChecks).map check.name) = false :=
  ⟨rfl, rfl, rfl⟩

/-- C3 (amended): the interactive render lists the rows in the deterministic
order that puts failing rows first and sorts by identity (ascending,
case-sensitive byte order) within each group; the row list is a permutation
of the deduplicated record set. -/
theorem table_rows_fail_first_then_identity (pr : PullRequest) (cs : List check)
    (h : toChecks pr = .ok cs) :
    (checksRunOnce true pr).1 =
        headlineOf (outcomeOf (countsOf cs)) ++ "\n" ++ countsLine (countsOf cs) ++ "\n\n"
          ++ renderRows (sortChecks cs)
    ∧ (sortChecks cs).Pairwise (fun a b => rowLe a b = true)
    ∧ List.Perm (sortChecks cs) cs := by
  refine ⟨?_, sortLe_pairwise rowLe_total rowLe_trans cs, sortLe_perm rowLe cs⟩
  simp [checksRunOnce, h, renderFrame, renderTTY]

/-- C3, witness of the amended claim on the some-failing scenario. -/
theorem table_rows_fail_first_witness :
    (checksRunOnce true someFailingPR).1 =
        headlineOf (outcomeOf (countsOf someFailingChecks)) ++ "\n"
          ++ countsLine (countsOf someFailingChecks) ++ "\n\n"
          ++ renderRows (sortChecks someFailingChecks)
    ∧ (sortChecks someFailingChecks).Pairwise (fun a b => rowLe a b = true) :=
  ⟨(table_rows_fail_first_then_identity someFailingPR someFailingChecks rfl).1,
    (table_rows_fail_first_then_identity someFailingPR someFailingChecks rfl).2.1⟩

/-- C4: for every aggregate summary the outcome obeys the three-way
precedence: at least one failing check forces Failed whatever the other
counts are, otherwise at least one pending check forces Pending, otherwise
the outcome is AllPassed. -/
theorem outcome_precedence (s : checkCounts) :
    (1 ≤ s.failed → outcomeOf s = .failed)
    ∧ (s.failed = 0 → 1 ≤ s.pending → outcomeOf s = .pending)
    ∧ (s.failed = 0 → s.pending = 0 → outcomeOf s = .allPassed) := by
  unfold outcomeOf
  refine ⟨fun h => ?_, fun h0 h1 => ?_, fun h0 h1 => ?_⟩
  · rw [if_pos h]
  · rw [if_neg (by omega), if_pos h1]
  · rw [if_neg (by omega), if_neg (by omega)]

/-- C4, witness at concrete summaries, one per outcome. -/
theorem outcome_precedence_witness :
    outcomeOf ⟨1, 0, 0, 7⟩ = .failed
    ∧ outcomeOf ⟨0, 2, 1, 5⟩ = .pending
    ∧ outcomeOf ⟨0, 4, 6, 0⟩ = .allPassed :=
  ⟨(outcome_precedence ⟨1, 0, 0, 7⟩).1 (by decide),
    (outcome_precedence ⟨0, 2, 1, 5⟩).2.1 rfl (by decide),
    (outcome_precedence ⟨0, 4, 6, 0⟩).2.2 rfl rfl⟩

/-- C5: the outcome resolver maps AllPassed to success (no error) with the
all-successful headline, and maps Pending and Failed to the message-free
silent failure with their respective headlines. -/
theorem outcome_resolver_contract :
    errorOf .allPassed = none
    ∧ headlineOf .allPassed = "All checks were successful"
    ∧ errorOf .pending = some .silentError
    ∧ headlineOf .pending = "Some checks are still pending"
    ∧ errorOf .failed = some .silentError
    ∧ headlineOf .failed = "Some checks were not successful" :=
  ⟨rfl, rfl, rfl, rfl, rfl, rfl⟩

/-- C6: a commit with zero check entries fails with the user-visible error
naming the head branch, and a pull request without a commit fails with the
user-visible no-commit error; in both cases nothing at all is written to
stdout, in either terminal mode. -/
theorem absence_errors_no_output (branch : String) (tty : Bool) :
    checksRunOnce tty ⟨branch, some []⟩ =
        ("", some (.userError ("no checks reported on the '" ++ branch ++ "' branch")))
    ∧ checksRunOnce tty ⟨branch, none⟩ =
        ("", some (.userError "no commit found on the pull request")) :=
  ⟨rfl, rfl⟩

/-- C7: the machine-readable render is exactly the concatenation of one line
per record, each line being the identity, the outcome word, the elapsed
duration (the literal `0` when unavailable) and the link separated by single
tabs, in that fixed order, with no headline or count summary; and the
outcome word is always one of the four lowercase words. -/
theorem machine_stream_format (l : List check) :
    renderNonTTY l =
      (l.map (fun c =>
          c.name ++ "\t" ++ bucketWord c.bucket ++ "\t"
            ++ (if c.elapsed = "" then "0" else c.elapsed) ++ "\t" ++ c.link ++ "\n")).foldr
        (· ++ ·) ""
    ∧ ∀ b : Bucket,
        bucketWord b = "pass" ∨ bucketWord b = "fail" ∨ bucketWord b = "pending"
          ∨ bucketWord b = "skipped" := by
  constructor
  · induction l with
    | nil => rfl
    | cons c cs ih => simp [renderNonTTY, ih]
  · intro b
    cases b
    · exact Or.inl rfl
    · exact Or.inr (Or.inl rfl)
    · exact Or.inr (Or.inr (Or.inl rfl))
    · exact Or.inr (Or.inr (Or.inr rfl))

/-- C8, counterexample: a sequence with pairwise distinct DedupKeys whose
start times ascend is reordered by the deduplicator, so key-uniqueness alone
does not make the deduplicator the identity. -/
theorem dedup_unique_keys_not_fixed :
    (pairAsc.map dedupKey).Nodup ∧ eliminateDuplicates pairAsc ≠ pairAsc :=
  ⟨by decide, by decide⟩

/-- C8 (amended): the deduplicator is idempotent in the functional sense:
applied to its own output it returns that output unchanged; a merely
key-unique sequence may still be reordered by recency. -/
theorem dedup_idempotent (l : List CheckContext) :
    eliminateDuplicates (eliminateDuplicates l) = eliminateDuplicates l := by
  have hpair : (eliminateDuplicates l).Pairwise (fun a b => startLe a b = true) :=
    (dedup_sorted l).imp (fun h => decide_eq_true h)
  show dedupFilter [] (sortLe startLe (eliminateDuplicates l)) = eliminateDuplicates l
  rw [sortLe_eq_of_pairwise hpair]
  exact dedupFilter_eq_self (dedup_keys_nodup l) (by simp)

/-- C9: in interactive watch mode, when the first fetch already yields a
non-pending outcome, the command draws exactly one frame inside the
alternate screen buffer, leaves the buffer, and prints the identical frame
once more outside it, with the error signal resolved from that frame's
summary. -/
theorem watch_single_frame_repaint (pr : PullRequest) (rest : List PullRequest)
    (cs : List check) (h : toChecks pr = .ok cs)
    (hout : outcomeOf (countsOf cs) ≠ .pending) :
    checksRunWatch (pr :: rest) =
      some (altEnter ++ renderFrame cs ++ altExit ++ renderFrame cs,
        errorOf (outcomeOf (countsOf cs))) := by
  simp [checksRunWatch, watchLoop, h, hout]

/-- C9, witness on the all-passing scenario. -/
theorem watch_single_frame_repaint_witness :
    checksRunWatch [allPassingPR] =
      some (altEnter ++ renderFrame allPassingChecks ++ altExit ++ renderFrame allPassingChecks,
        none) :=
  watch_single_frame_repaint allPassingPR [] allPassingChecks rfl (by decide)

/-- C10: with zero failing and zero pending records the command succeeds
with no error and the all-successful headline, whatever the skipped count
is; skipped checks never degrade the overall result. -/
theorem skipped_checks_still_successful (pr : PullRequest) (cs : List check)
    (h : toChecks pr = .ok cs) (hf : (countsOf cs).failed = 0)
    (hp : (countsOf cs).pending = 0) :
    (checksRunOnce true pr).2 = none
    ∧ (checksRunOnce true pr).1 =
        "All checks were successful" ++ "\n" ++ countsLine (countsOf cs) ++ "\n\n"
          ++ renderRows (sortChecks cs) := by
  have ho : outcomeOf (countsOf cs) = .allPassed := by
    unfold outcomeOf
    rw [if_neg (by omega), if_neg (by omega)]
  constructor
  · simp [checksRunOnce, h, ho, errorOf]
  · simp [checksRunOnce, h, renderFrame, renderTTY, ho, headlineOf]

/-- C10, witness on the some-skipping scenario, where the skipped count
exceeds the passing count and the command still succeeds. -/
theorem skipped_checks_still_successful_witness :
    (checksRunOnce true someSkippingPR).2 = none
    ∧ (countsOf someSkippingChecks).passed < (countsOf someSkippingChecks).skipped :=
  ⟨(skipped_checks_still_successful someSkippingPR someSkippingChecks rfl rfl rfl).1,
    by decide⟩

end Checks
